import Mathlib

/-!
Verification of tengattack/logrus-agent-hook (hook.go).

The repository ships two revisions of the same package in `hook.go`:

* the asynchronous variant (a bounded channel `channel`, a background
  `subWriter` goroutine, `Fire` performing a channel send, and a
  `LogAgentFormatter.Format` with a split-extras mode, `defer releaseEntry`,
  and `entry.Time.UTC()` timestamps), and
* the synchronous variant (`Fire` formats and writes inline, a
  `LogAgentFormatter.Format` without extras handling, without `defer`, and
  with `entry.Time.Format` on the local clock reading).

This file is a shallow embedding of both variants.  Go maps are modelled as
association lists where the *first* binding of a key is its current value
(`goInsert` prepends, `goLookup` takes the first match); map iteration is
modelled by `goEntries`, which lists each key's current binding once, in list
order (Go's iteration order is unspecified; every map consumer below is
order-independent at the `goLookup` level, and serialization sorts keys as
`encoding/json` does).  All recursion is structural so that every definition
evaluates by kernel reduction.
-/

/-- A dynamically typed field value (`interface{}` in `logrus.Fields`).
`str` is a Go `string`; `err` is a value implementing Go's `error` interface
(carrying the result of its `Error()` method); `unsupported` stands for a
value `encoding/json` cannot marshal (a channel, function, ...), carrying its
`fmt` rendering. -/
inductive GoValue where
  | str (s : String)
  | err (msg : String)
  | unsupported (rep : String)
deriving DecidableEq

/-- `logrus.Fields` (`map[string]interface{}`), as an association list whose
first binding per key is current. -/
abbrev GoFields := List (String × GoValue)

/-- Go map read `m[k]`: the current (first) binding of `k`, if any. -/
def goLookup (m : GoFields) (k : String) : Option GoValue :=
  match m with
  | [] => none
  | (k1, v) :: rest => if k = k1 then some v else goLookup rest k

/-- Go map write `m[k] = v`: the new binding shadows any former one. -/
def goInsert (k : String) (v : GoValue) (m : GoFields) : GoFields :=
  (k, v) :: m

/-- The entries a Go `for k, v := range m` loop visits: each key's current
binding, once.  `seen` accumulates keys already emitted. -/
def goEntriesAux (seen : List String) : GoFields → GoFields
  | [] => []
  | (k, v) :: rest =>
    if k ∈ seen then goEntriesAux seen rest
    else (k, v) :: goEntriesAux (k :: seen) rest

/-- All current bindings of a Go map, each key once. -/
def goEntries (m : GoFields) : GoFields :=
  goEntriesAux [] m

/-- The key set of a Go map, each key once. -/
def goKeys (m : GoFields) : List String :=
  (goEntries m).map Prod.fst

/-- A Go loop `for k, v := range src { dst[k] = v }`, iterating the list
`src` (already produced by `goEntries`). -/
def goSetList (dst : GoFields) : GoFields → GoFields
  | [] => dst
  | (k, v) :: rest => goSetList (goInsert k v dst) rest

/-- Copy every binding of the map `src` into `dst` (later writes win). -/
def goSetAll (dst src : GoFields) : GoFields :=
  goSetList dst (goEntries src)

/-! ### Lemmas about the map model -/

theorem goLookup_goInsert (m : GoFields) (k k1 : String) (v : GoValue) :
    goLookup (goInsert k1 v m) k = if k = k1 then some v else goLookup m k := by
  simp [goInsert, goLookup]

theorem goLookup_eq_none_of_not_mem (m : GoFields) (k : String)
    (h : k ∉ m.map Prod.fst) : goLookup m k = none := by
  induction m with
  | nil => rfl
  | cons kv rest ih =>
    simp only [List.map_cons, List.mem_cons] at h
    push_neg at h
    cases kv with
    | mk k1 v =>
      simp only [goLookup]
      rw [if_neg h.1]
      exact ih h.2

theorem goEntriesAux_lookup (l : GoFields) :
    ∀ (seen : List String) (k : String),
      goLookup (goEntriesAux seen l) k =
        if k ∈ seen then none else goLookup l k := by
  induction l with
  | nil => intro seen k; simp [goEntriesAux, goLookup]
  | cons kv rest ih =>
    intro seen k
    cases kv with
    | mk k1 v =>
      simp only [goEntriesAux]
      by_cases h1 : k1 ∈ seen
      · rw [if_pos h1, ih seen k]
        by_cases hk : k ∈ seen
        · simp [hk]
        · have : k ≠ k1 := fun he => hk (he ▸ h1)
          simp [hk, goLookup, this]
      · rw [if_neg h1]
        simp only [goLookup]
        by_cases hk : k = k1
        · subst hk
          simp [h1]
        · rw [if_neg hk, ih (k1 :: seen) k]
          simp only [List.mem_cons]
          by_cases hs : k ∈ seen
          · simp [hs, hk]
          · simp [hs, hk]

/-- Iterating a map visits exactly its current bindings. -/
theorem goEntries_lookup (m : GoFields) (k : String) :
    goLookup (goEntries m) k = goLookup m k := by
  rw [goEntries, goEntriesAux_lookup]
  simp

theorem goEntriesAux_keys_disjoint (l : GoFields) :
    ∀ (seen : List String) (k : String), k ∈ seen →
      k ∉ (goEntriesAux seen l).map Prod.fst := by
  induction l with
  | nil => intro seen k _; simp [goEntriesAux]
  | cons kv rest ih =>
    intro seen k hk
    cases kv with
    | mk k1 v =>
      simp only [goEntriesAux]
      by_cases h1 : k1 ∈ seen
      · rw [if_pos h1]; exact ih seen k hk
      · rw [if_neg h1]
        simp only [List.map_cons, List.mem_cons]
        push_neg
        constructor
        · exact fun he => h1 (he ▸ hk)
        · exact ih (k1 :: seen) k (List.mem_cons_of_mem _ hk)

theorem goEntriesAux_keys_nodup (l : GoFields) :
    ∀ seen : List String, ((goEntriesAux seen l).map Prod.fst).Nodup := by
  induction l with
  | nil => intro seen; simp [goEntriesAux]
  | cons kv rest ih =>
    intro seen
    cases kv with
    | mk k1 v =>
      simp only [goEntriesAux]
      by_cases h1 : k1 ∈ seen
      · rw [if_pos h1]; exact ih seen
      · rw [if_neg h1]
        simp only [List.map_cons, List.nodup_cons]
        exact ⟨goEntriesAux_keys_disjoint rest (k1 :: seen) k1 (List.mem_cons_self _ _),
               ih (k1 :: seen)⟩

/-- The key list of a Go map has no duplicates. -/
theorem goKeys_nodup (m : GoFields) : (goKeys m).Nodup :=
  goEntriesAux_keys_nodup m []

theorem goSetList_lookup (l : GoFields) :
    ∀ (dst : GoFields) (k : String), (l.map Prod.fst).Nodup →
      goLookup (goSetList dst l) k =
        match goLookup l k with
        | some v => some v
        | none => goLookup dst k := by
  induction l with
  | nil => intro dst k _; simp [goSetList, goLookup]
  | cons kv rest ih =>
    intro dst k hnd
    cases kv with
    | mk k1 v =>
      simp only [List.map_cons, List.nodup_cons] at hnd
      simp only [goSetList, goLookup]
      rw [ih (goInsert k1 v dst) k hnd.2]
      by_cases hk : k = k1
      · subst hk
        have : goLookup rest k = none :=
          goLookup_eq_none_of_not_mem rest k hnd.1
        simp [this, goLookup_goInsert]
      · rw [if_neg hk]
        cases h : goLookup rest k with
        | some w => simp
        | none => simp [goLookup_goInsert, hk]

/-- Copying `src` over `dst` gives `src`'s binding when present, else `dst`'s. -/
theorem goSetAll_lookup (dst src : GoFields) (k : String) :
    goLookup (goSetAll dst src) k =
      match goLookup src k with
      | some v => some v
      | none => goLookup dst k := by
  rw [goSetAll, goSetList_lookup (goEntries src) dst k (goKeys_nodup src),
      goEntries_lookup]

/-! ### Levels (`logrus.Level`, a Go `uint32`) -/

/-- `logrus.Level` values: Panic 0, Fatal 1, Error 2, Warn 3, Info 4,
Debug 5, Trace 6; the zero value is `PanicLevel`. -/
abbrev GoLevel := Nat

def PanicLevel : GoLevel := 0
def FatalLevel : GoLevel := 1
def ErrorLevel : GoLevel := 2
def WarnLevel : GoLevel := 3
def InfoLevel : GoLevel := 4
def DebugLevel : GoLevel := 5
def TraceLevel : GoLevel := 6

/-- `getLevelString`: the `switch` mapping a level to its upper-case name;
every unlisted value (e.g. `TraceLevel`) falls through to `"UNKNOWN"`. -/
def getLevelString (level : GoLevel) : String :=
  if level = DebugLevel then "DEBUG"
  else if level = InfoLevel then "INFO"
  else if level = WarnLevel then "WARN"
  else if level = ErrorLevel then "ERROR"
  else if level = FatalLevel then "FATAL"
  else if level = PanicLevel then "PANIC"
  else "UNKNOWN"

/-! ### Time (`time.Time`) and the `TimeFormat` layout

`TimeFormat = "2006-01-02T15:04:05.999Z07:00"`: date and clock zero-padded,
`.999` a fractional second of up to three digits with trailing zeros (and a
zero fraction entirely) elided, `Z07:00` the literal `Z` for a zero zone
offset and `±hh:mm` otherwise.

A Go `time.Time` is an absolute instant plus a location.  `GoTime` carries
the instant's *civil reading in UTC* (year..second, nanoseconds) plus the
location's offset in seconds.  `t.UTC()` keeps the instant and sets the
offset to `0`, so the async variant's `entry.Time.UTC().Format(TimeFormat)`
renders exactly the stored civil fields with a zero offset; the sync
variant's `entry.Time.Format(TimeFormat)` renders the local civil reading,
computed from the UTC reading and the offset by calendar arithmetic below. -/
structure GoTime where
  year : Nat
  month : Nat
  day : Nat
  hour : Nat
  minute : Nat
  second : Nat
  nanos : Nat
  offsetSec : Int
deriving DecidableEq

/-- A decimal digit character (used by Go's `appendInt`); the index is taken
mod 10, so the result is always one of `'0'..'9'`. -/
def decDigitChar (n : Nat) : Char :=
  "0123456789".data.getD (n % 10) '0'

/-- The decimal digits of `n`, most significant first (Go `appendInt`'s
repeated division; `fuel ≥ n + 1` makes the recursion structural). -/
def goDigitsAux : Nat → Nat → List Char
  | 0, _ => []
  | fuel + 1, n =>
    if n < 10 then [decDigitChar n]
    else goDigitsAux fuel (n / 10) ++ [decDigitChar (n % 10)]

def goDigits (n : Nat) : List Char :=
  goDigitsAux (n + 1) n

/-- Go `appendInt(b, n, w)`: the decimal digits of `n`, zero-padded on the
left to width `w` (longer numbers keep all their digits). -/
def goPad (w n : Nat) : List Char :=
  let ds := goDigits n
  List.replicate (w - ds.length) '0' ++ ds

/-- The `.999` fragment: the three millisecond digits of `nanos` with
trailing zeros removed; the leading `'.'` is dropped too when nothing
remains (Go `fmtFrac` with `trim`). -/
def goFrac999 (nanos : Nat) : List Char :=
  let ds := ((goPad 3 (nanos / 1000000)).reverse.dropWhile (fun c => c = '0')).reverse
  match ds with
  | [] => []
  | _ => '.' :: ds

/-- The `Z07:00` fragment: `Z` for offset zero, else `±hh:mm`. -/
def goZoneZ (offsetSec : Int) : List Char :=
  if offsetSec = 0 then ['Z']
  else
    let a := offsetSec.natAbs
    (if offsetSec < 0 then '-' else '+') ::
      (goPad 2 (a / 3600) ++ ':' :: goPad 2 (a % 3600 / 60))

/-- `Format(TimeFormat)` applied to the civil reading
`y-mo-d h:mi:s + nanos` in a location of offset `offsetSec`. -/
def goFormatTimeLayout (y mo d h mi s nanos : Nat) (offsetSec : Int) : String :=
  String.mk (goPad 4 y ++ '-' :: goPad 2 mo ++ '-' :: goPad 2 d ++
    'T' :: goPad 2 h ++ ':' :: goPad 2 mi ++ ':' :: goPad 2 s ++
    goFrac999 nanos ++ goZoneZ offsetSec)

/-- `entry.Time.UTC().Format(TimeFormat)` (async variant, hook.go:221):
the UTC civil reading with a zero zone offset. -/
def timestampUTC (t : GoTime) : String :=
  goFormatTimeLayout t.year t.month t.day t.hour t.minute t.second t.nanos 0

/-- Civil date to days since 1970-01-01 (proleptic Gregorian). -/
def daysFromCivil (y m d : Int) : Int :=
  let y1 := if m ≤ 2 then y - 1 else y
  let era := (if 0 ≤ y1 then y1 else y1 - 399) / 400
  let yoe := y1 - era * 400
  let doy := (153 * (if 2 < m then m - 3 else m + 9) + 2) / 5 + d - 1
  let doe := yoe * 365 + yoe / 4 - yoe / 100 + doy
  era * 146097 + doe - 719468

/-- Days since 1970-01-01 to the civil date (year, month, day). -/
def civilFromDays (z : Int) : Int × Int × Int :=
  let z1 := z + 719468
  let era := (if 0 ≤ z1 then z1 else z1 - 146096) / 146097
  let doe := z1 - era * 146097
  let yoe := (doe - doe / 1460 + doe / 36524 - doe / 146096) / 365
  let y := yoe + era * 400
  let doy := doe - (365 * yoe + yoe / 4 - yoe / 100)
  let mp := (5 * doy + 2) / 153
  let d := doy - (153 * mp + 2) / 5 + 1
  let m := if mp < 10 then mp + 3 else mp - 9
  (if m ≤ 2 then y + 1 else y, m, d)

/-- The civil reading of `t`'s instant in `t`'s own location: shift the UTC
reading by the location offset (with `ediv`/`emod` as floor division). -/
def localCivilReading (t : GoTime) : Int × Int × Int × Int × Int × Int :=
  let total := daysFromCivil t.year t.month t.day * 86400 +
    (t.hour * 3600 + t.minute * 60 + t.second : Nat) + t.offsetSec
  let days := total.ediv 86400
  let sod := total.emod 86400
  let ymd := civilFromDays days
  (ymd.1, ymd.2.1, ymd.2.2, sod / 3600, sod % 3600 / 60, sod % 60)

/-- `entry.Time.Format(TimeFormat)` (sync variant, hook.go line 454 of the
concatenated source): the local civil reading with the location's offset. -/
def timestampLocal (t : GoTime) : String :=
  let c := localCivilReading t
  goFormatTimeLayout c.1.toNat c.2.1.toNat c.2.2.1.toNat c.2.2.2.1.toNat
    c.2.2.2.2.1.toNat c.2.2.2.2.2.toNat t.nanos t.offsetSec

/-! ### A log entry and the entry pool -/

/-- `logrus.Entry`, restricted to the fields the hook reads:
`Message`, `Level`, `Time`, `Data`. -/
structure GoEntryRec where
  message : String
  level : GoLevel
  time : GoTime
  data : GoFields
deriving DecidableEq

/-- Reserved output keys (hook.go:144-148). -/
def FieldKeyTime : String := "@timestamp"

def FieldKeyMsg : String := "message"

def FieldKeyLevel : String := "level"

def FieldKeyCategory : String := "category"

/-- `logstashFields = logrus.Fields{"@version": "1"}`. -/
def logstashFields : GoFields := [("@version", GoValue.str "1")]

/-- `copyEntry(e, fields)`: take a pooled record, overwrite `Message`,
`Level`, `Time`, replace `Data` by a fresh map holding `fields` overlaid by
`e.Data` (entry fields win).  The pooled record's former contents are fully
overwritten, so the copy is a pure function of `e` and `fields`; the pool
side effect (acquire/release) is tracked separately by the `Format` models
below. -/
def copyEntry (e : GoEntryRec) (fields : GoFields) : GoEntryRec :=
  { message := e.message, level := e.level, time := e.time,
    data := goSetAll (goSetAll [] fields) e.data }

/-! ### The formatter -/

/-- `LogAgentFormatter` (async variant): static `Fields` plus the two
flags.  The embedded `logrus.FieldMap` is never read by `Format` and is
omitted. -/
structure LogAgentFormatter where
  Fields : GoFields
  QuoteEmptyFields : Bool
  DisableSorting : Bool

/-- The sync variant's `LogAgentFormatter` carries only `Fields`. -/
structure SyncFormatter where
  Fields : GoFields

/-- The `case error:` type switch: an `error` field value is replaced by its
`Error()` text; every other value is kept (hook.go:200-217). -/
def convErrVal : GoValue → GoValue
  | GoValue.err m => GoValue.str m
  | v => v

/-- `needsQuoting`'s per-rune test, negated: the rune is in
`[A-Za-z0-9-._/@^+]` (hook.go:260-263). -/
def goSafeRune (ch : Char) : Bool :=
  (decide ('a' ≤ ch) && decide (ch ≤ 'z')) ||
  (decide ('A' ≤ ch) && decide (ch ≤ 'Z')) ||
  (decide ('0' ≤ ch) && decide (ch ≤ '9')) ||
  ch = '-' || ch = '.' || ch = '_' || ch = '/' || ch = '@' || ch = '^' || ch = '+'

/-- `needsQuoting(text)`: quote the empty string when `QuoteEmptyFields` is
set, and any text containing a rune outside the safe set. -/
def needsQuoting (f : LogAgentFormatter) (text : String) : Bool :=
  (f.QuoteEmptyFields && text.length = 0) ||
  text.data.any (fun ch => !(goSafeRune ch))

/-- One character of `strconv.Quote` (Go's `%q`).  `\"` and `\\` get a
backslash; printable ASCII stays; the named control escapes follow; other
control bytes become `\xhh`.  Non-ASCII printability (`unicode.IsPrint`) is
abstracted: non-ASCII characters are kept verbatim (no theorem below
evaluates `%q` on non-ASCII input). -/
def hexDigitChar (n : Nat) : Char :=
  "0123456789abcdef".data.getD (n % 16) '0'

def goQuoteChar (c : Char) : List Char :=
  if c = '"' then ['\\', '"']
  else if c = '\\' then ['\\', '\\']
  else if 0x20 ≤ c.toNat ∧ c.toNat ≤ 0x7e then [c]
  else if c = '\x07' then ['\\', 'a']
  else if c = '\x08' then ['\\', 'b']
  else if c = '\x0c' then ['\\', 'f']
  else if c = '\n' then ['\\', 'n']
  else if c = '\r' then ['\\', 'r']
  else if c = '\t' then ['\\', 't']
  else if c = '\x0b' then ['\\', 'v']
  else if c.toNat < 0x80 then
    '\\' :: 'x' :: [hexDigitChar (c.toNat / 16), hexDigitChar c.toNat]
  else [c]

/-- `fmt.Sprintf("%q", s)`. -/
def goQuote (s : String) : String :=
  String.mk ('"' :: (s.data.map goQuoteChar).flatten ++ ['"'])

/-- `fmt.Sprint(v)` for the modelled values: a string prints itself, an
error prints its `Error()` text, an unsupported value its carried
rendering. -/
def goSprint : GoValue → String
  | GoValue.str s => s
  | GoValue.err m => m
  | GoValue.unsupported rep => rep

/-- `appendValue(b, value)`: stringify, then write either the plain text or
its `%q` form (hook.go:279-290). -/
def appendValue (f : LogAgentFormatter) (b : String) (value : GoValue) : String :=
  let stringVal := goSprint value
  if !(needsQuoting f stringVal) then b ++ stringVal
  else b ++ goQuote stringVal

/-- `appendKeyValue(b, key, value)`: a space separator when the buffer is
non-empty, then `key=value` (hook.go:270-277). -/
def appendKeyValue (f : LogAgentFormatter) (b : String) (key : String)
    (value : GoValue) : String :=
  let b1 := if 0 < b.length then b ++ " " else b
  appendValue f (b1 ++ key ++ "=") value

/-! ### `encoding/json` marshalling of the field map -/

/-- One character of `encoding/json`'s string encoder (HTML escaping on, as
`json.Marshal` defaults): `\"`, `\\`, `\n`, `\r`, `\t` named; other control
characters and `<`, `>`, `&` as `\u00хh`-style escapes; U+2028/U+2029
escaped; everything else verbatim. -/
def jsonQuoteChar (c : Char) : List Char :=
  if c = '"' then ['\\', '"']
  else if c = '\\' then ['\\', '\\']
  else if c = '\n' then ['\\', 'n']
  else if c = '\r' then ['\\', 'r']
  else if c = '\t' then ['\\', 't']
  else if c.toNat < 0x20 then
    '\\' :: 'u' :: '0' :: '0' :: [hexDigitChar (c.toNat / 16), hexDigitChar c.toNat]
  else if c = '<' ∨ c = '>' ∨ c = '&' then
    '\\' :: 'u' :: '0' :: '0' :: [hexDigitChar (c.toNat / 16), hexDigitChar c.toNat]
  else if c.toNat = 0x2028 ∨ c.toNat = 0x2029 then
    ['\\', 'u', '2', '0', '2', hexDigitChar c.toNat]
  else [c]

/-- A JSON string literal for `s`. -/
def jsonQuote (s : String) : String :=
  String.mk ('"' :: (s.data.map jsonQuoteChar).flatten ++ ['"'])

/-- `json.Marshal` of one field value: strings as JSON strings; a bare
`error` value marshals as `{}` (its struct has no exported fields — the
reason `Format` converts errors first); unsupported values fail
(`UnsupportedTypeError`). -/
def marshalValue : GoValue → Option String
  | GoValue.str s => some (jsonQuote s)
  | GoValue.err _ => some "\x7b\x7d"
  | GoValue.unsupported _ => none

/-- Lexicographic comparison of character lists.  Go compares strings
byte-wise; UTF-8 byte order coincides with code-point order, so this is
Go's `<=` on strings. -/
def charListLe : List Char → List Char → Bool
  | [], _ => true
  | _ :: _, [] => false
  | a :: as, b :: bs => if a < b then true else if b < a then false else charListLe as bs

/-- Go string `<=`. -/
def goStrLe (a b : String) : Bool :=
  charListLe a.data b.data

/-- Insertion into a sorted list of strings (helper for `sort.Strings` /
`encoding/json`'s sorted map keys). -/
def insertSorted (x : String) : List String → List String
  | [] => [x]
  | y :: rest => if goStrLe x y then x :: y :: rest else y :: insertSorted x rest

/-- Sort strings ascending (`sort.Strings`; byte order, which for UTF-8
agrees with code-point order). -/
def sortStrings (l : List String) : List String :=
  l.foldr insertSorted []

def joinComma : List String → String
  | [] => ""
  | [x] => x
  | x :: rest => x ++ "," ++ joinComma rest

/-- Marshal the `"key":value` members for the given bindings, failing if
any value is unmarshalable. -/
def marshalMembers : GoFields → Option (List String)
  | [] => some []
  | (k, v) :: rest =>
    match marshalValue v, marshalMembers rest with
    | some vs, some rs => some ((jsonQuote k ++ ":" ++ vs) :: rs)
    | _, _ => none

/-- `json.Marshal` of a `logrus.Fields` map: members in sorted key order
inside `{`..`}`; `none` on an unsupported value. -/
def marshalObj (m : GoFields) : Option String :=
  match marshalMembers ((sortStrings (goKeys m)).filterMap
      (fun k => (goLookup m k).map (fun v => (k, v)))) with
  | some parts => some ("\x7b" ++ joinComma parts ++ "\x7d")
  | none => none

/-- The result of a Go `([]byte, error)` return from `Format`: either the
formatted bytes (with a `nil` error) or a `FormatError` text (with `nil`
bytes). -/
inductive FormatResult where
  | ok (bytes : String)
  | fail (msg : String)
deriving DecidableEq

/-! ### `DefaultFormatter` -/

/-- The loop in `DefaultFormatter`: insert each missing `logstashFields`
binding into the caller's map (hook.go:180-184).  Go maps are reference
values, so these writes land in the caller's own map. -/
def defaultFormatterFields (fields : GoFields) : GoFields :=
  goEntriesFold (goEntries logstashFields) fields
where
  goEntriesFold : GoFields → GoFields → GoFields
    | [], m => m
    | (k, v) :: rest, m =>
      goEntriesFold rest (if (goLookup m k).isSome then m else goInsert k v m)

/-- `DefaultFormatter(fields)` (async variant): mutate the caller's map,
then return a formatter whose `Fields` is that same map.  The first
component is the caller's map contents after the call (the in-place update
made explicit). -/
def DefaultFormatter (fields : GoFields) : GoFields × LogAgentFormatter :=
  let fields2 := defaultFormatterFields fields
  (fields2, { Fields := fields2, QuoteEmptyFields := false, DisableSorting := false })

/-- `DefaultFormatter(fields)` (sync variant): identical mutation, formatter
without the flag fields. -/
def syncDefaultFormatter (fields : GoFields) : GoFields × SyncFormatter :=
  let fields2 := defaultFormatterFields fields
  (fields2, { Fields := fields2 })

/-! ### `LogAgentFormatter.Format` (async variant, hook.go:194-253) -/

/-- The loop at hook.go:199-218: route each merged field either into the
top-level `data` map (its key occurs in `f.Fields`, or is `"category"`) or
into `extras`, converting `error` values either way. -/
def splitLoop (ffields : GoFields) : GoFields → GoFields → GoFields → GoFields × GoFields
  | [], data, extras => (data, extras)
  | (k, v) :: rest, data, extras =>
    if (goLookup ffields k).isSome ∨ k = FieldKeyCategory then
      splitLoop ffields rest (goInsert k (convErrVal v) data) extras
    else
      splitLoop ffields rest data (goInsert k (convErrVal v) extras)

/-- Split the merged entry data into (top-level fields, extras). -/
def splitEntryFields (ffields merged : GoFields) : GoFields × GoFields :=
  splitLoop ffields (goEntries merged) [] []

/-- One iteration of the sorted-keys loop body
`f.appendKeyValue(b, k, extras[k])`: the keys iterated come from `extras`,
so the lookup always finds a value (the `none` arm is unreachable). -/
def extrasStep (f : LogAgentFormatter) (extras : GoFields) (b k : String) : String :=
  match goLookup extras k with
  | some v => appendKeyValue f b k v
  | none => b

/-- The message built at hook.go:224-245: the entry's message, then — when
extras exist — one `key=value` token per extra, space separated from a
non-empty buffer, keys sorted unless `DisableSorting`. -/
def buildMessage (f : LogAgentFormatter) (message : String) (extras : GoFields) : String :=
  if 0 < (goEntries extras).length then
    if !f.DisableSorting then
      (sortStrings (goKeys extras)).foldl (extrasStep f extras) message
    else
      (goEntries extras).foldl (fun b kv => appendKeyValue f b kv.1 kv.2) message
  else message

/-- The field map `Format` hands to `json.Marshal`: the split top-level
fields plus the reserved `@timestamp` (UTC), `level` and `message` keys. -/
def formatDataMap (f : LogAgentFormatter) (e : GoEntryRec) : GoFields :=
  let entry := copyEntry e f.Fields
  let de := splitEntryFields f.Fields entry.data
  let data1 := goInsert FieldKeyTime (GoValue.str (timestampUTC entry.time)) de.1
  let data2 := goInsert FieldKeyLevel (GoValue.str (getLevelString entry.level)) data1
  goInsert FieldKeyMsg (GoValue.str (buildMessage f entry.message de.2)) data2

/-- `Format` (async variant), with the `entryPool` interaction made
explicit: the second component records whether `releaseEntry` ran on the
taken path.  `defer releaseEntry(entry)` runs on the error return and on
the normal return alike. -/
def goFormatWithRelease (f : LogAgentFormatter) (e : GoEntryRec) :
    FormatResult × Bool :=
  match marshalObj (formatDataMap f e) with
  | none => (FormatResult.fail "Failed to marshal fields to JSON", true)
  | some s => (FormatResult.ok (s ++ "\n"), true)

/-- `Format` (async variant): the serialized map plus a trailing newline,
or a `FormatError`. -/
def goFormat (f : LogAgentFormatter) (e : GoEntryRec) : FormatResult :=
  (goFormatWithRelease f e).1

/-! ### `LogAgentFormatter.Format` (sync variant, second revision) -/

/-- The sync variant's field map: every merged field goes to top level
(error values converted), then the reserved keys; the timestamp uses the
entry's local clock reading (no `.UTC()`). -/
def syncFormatDataMap (f : SyncFormatter) (e : GoEntryRec) : GoFields :=
  let entry := copyEntry e f.Fields
  let data := convLoop (goEntries entry.data) []
  let data1 := goInsert FieldKeyTime (GoValue.str (timestampLocal entry.time)) data
  let data2 := goInsert FieldKeyLevel (GoValue.str (getLevelString entry.level)) data1
  goInsert FieldKeyMsg (GoValue.str entry.message) data2
where
  convLoop : GoFields → GoFields → GoFields
    | [], data => data
    | (k, v) :: rest, data => convLoop rest (goInsert k (convErrVal v) data)

/-- `Format` (sync variant), pool interaction explicit.  Here
`releaseEntry(entry)` is only reached *after* the `json.Marshal` error
check: the error path returns first and never releases the pooled entry. -/
def syncFormatWithRelease (f : SyncFormatter) (e : GoEntryRec) :
    FormatResult × Bool :=
  match marshalObj (syncFormatDataMap f e) with
  | none => (FormatResult.fail "Failed to marshal fields to JSON", false)
  | some s => (FormatResult.ok (s ++ "\n"), true)

/-! ### The asynchronous hook (channel, `Fire`, stop) -/

/-- The buffered channel `make(chan *logrus.Entry, chanSize)`:
FIFO buffer, capacity, closed flag. -/
structure ChanState where
  buf : List GoEntryRec
  cap : Nat
  closed : Bool
deriving DecidableEq

/-- The observable one-step outcome of `Fire` on the calling thread. -/
inductive FireOutcome where
  | returns (c : ChanState) (err : Option String)
  | blocked
  | panicked
deriving DecidableEq

/-- The `Hook` struct: writer, formatter, entry channel, stop channel.
The formatter and writer are the behaviors `subWriter` later invokes; only
their channel is relevant to `Fire`. -/
structure GoHook where
  channel : ChanState
  stopClosed : Bool
  formatter : GoEntryRec → FormatResult
  writer : String → Bool

/-- Semantics of the Go channel send `ch <- e`: a send on a closed channel
panics; a send with buffer space enqueues and completes; a send on a full
buffer blocks the sender (there is no `select`/`default` around the send in
`Fire`, so no value is ever dropped). -/
def chanSend (c : ChanState) (e : GoEntryRec) : FireOutcome :=
  if c.closed then FireOutcome.panicked
  else if c.buf.length < c.cap then
    FireOutcome.returns { buf := c.buf ++ [e], cap := c.cap, closed := c.closed } none
  else FireOutcome.blocked

/-- `logrus.Entry.Dup()`: a fresh entry sharing `Time` and a copy of
`Data`; `Message` and `Level` are *not* copied and take their zero values. -/
def goDup (e : GoEntryRec) : GoEntryRec :=
  { message := "", level := PanicLevel, time := e.time, data := e.data }

/-- `Hook.Fire` (async variant, hook.go:87-93): duplicate the entry,
restore its message, send it on the channel, and — once the send
completes — return `nil`. -/
def hookFire (h : GoHook) (e : GoEntryRec) : FireOutcome :=
  let e2 := { goDup e with message := e.message }
  chanSend h.channel e2

/-- The stop function returned by `NewWithChannelSize` (hook.go:56-59):
`close(hook.stopChan); close(hook.channel)`. -/
def stopHook (h : GoHook) : GoHook :=
  { h with stopClosed := true,
           channel := { h.channel with closed := true } }

/-! ### Spec-side predicates (formalizing the claims' wording) -/

/-- The claim's fixed-width timestamp pattern `YYYY-MM-DDTHH:mm:ss.sssZ`:
exactly 24 characters, digits and separators in place, exactly three
fractional digits, literal `Z`. -/
def isFixedMillisPattern (s : String) : Bool :=
  match s.data with
  | [y1, y2, y3, y4, c1, m1, m2, c2, d1, d2, c3, h1, h2, c4, i1, i2, c5,
     s1, s2, c6, f1, f2, f3, c7] =>
    y1.isDigit && y2.isDigit && y3.isDigit && y4.isDigit && c1 = '-' &&
    m1.isDigit && m2.isDigit && c2 = '-' && d1.isDigit && d2.isDigit &&
    c3 = 'T' && h1.isDigit && h2.isDigit && c4 = ':' && i1.isDigit &&
    i2.isDigit && c5 = ':' && s1.isDigit && s2.isDigit && c6 = '.' &&
    f1.isDigit && f2.isDigit && f3.isDigit && c7 = 'Z'
  | _ => false

/-- The 19-character date-time prefix `YYYY-MM-DDTHH:mm:ss`. -/
def isBase19 (l : List Char) : Bool :=
  match l with
  | [y1, y2, y3, y4, c1, m1, m2, c2, d1, d2, c3, h1, h2, c4, i1, i2, c5,
     s1, s2] =>
    y1.isDigit && y2.isDigit && y3.isDigit && y4.isDigit && c1 = '-' &&
    m1.isDigit && m2.isDigit && c2 = '-' && d1.isDigit && d2.isDigit &&
    c3 = 'T' && h1.isDigit && h2.isDigit && c4 = ':' && i1.isDigit &&
    i2.isDigit && c5 = ':' && s1.isDigit && s2.isDigit
  | _ => false

/-- The timestamp shape the code actually produces: the date-time prefix,
then either no fraction at all, or `.` followed by one to three digits of
which the last is not `'0'`, then the literal `Z`. -/
def isElidedMillisPattern (s : String) : Bool :=
  isBase19 (s.data.take 19) &&
  (match s.data.drop 19 with
   | ['Z'] => true
   | '.' :: rest =>
     (decide (rest.getLast? = some 'Z')) &&
     (decide (1 ≤ rest.dropLast.length)) && (decide (rest.dropLast.length ≤ 3)) &&
     rest.dropLast.all Char.isDigit &&
     (decide (rest.dropLast.getLast? ≠ some '0'))
   | _ => false)

/-- The claim's top-level map for the split-extras formatter: the static
fields overlaid by exactly those entry fields whose key occurs among the
static fields or equals `"category"`, the entry's value winning. -/
def specTopOverlay (statics eData : GoFields) (k : String) : Option GoValue :=
  if (goLookup eData k).isSome ∧ ((goLookup statics k).isSome ∨ k = "category") then
    goLookup eData k
  else goLookup statics k

/-- The claim's character set `[A-Za-z0-9\-._/@^+]` for extras values. -/
def specSafeChar (c : Char) : Bool :=
  c.isAlpha || c.isDigit ||
  c = '-' || c = '.' || c = '_' || c = '/' || c = '@' || c = '^' || c = '+'

/-! ### Concrete fixtures -/

/-- 2018-07-21 14:34:42 UTC exactly (zero nanoseconds), in a +09:00
location — the README's example instant. -/
def tSample : GoTime :=
  { year := 2018, month := 7, day := 21, hour := 14, minute := 34,
    second := 42, nanos := 0, offsetSec := 32400 }

def eSample : GoEntryRec :=
  { message := "my message", level := InfoLevel, time := tSample, data := [] }

/-- A running hook whose 1-slot channel already holds one entry (a slow
consumer): the next send finds the buffer full. -/
def hookFull : GoHook :=
  { channel := { buf := [eSample], cap := 1, closed := false },
    stopClosed := false,
    formatter := fun _ => FormatResult.fail "always fails",
    writer := fun _ => false }

/-- A running hook with a free slot whose formatter and sink both fail. -/
def hookFree : GoHook :=
  { channel := { buf := [], cap := 1, closed := false },
    stopClosed := false,
    formatter := fun _ => FormatResult.fail "always fails",
    writer := fun _ => false }

/-- Like `hookFree` but with a succeeding formatter and sink. -/
def hookFreeOk : GoHook :=
  { channel := { buf := [], cap := 1, closed := false },
    stopClosed := false,
    formatter := fun _ => FormatResult.ok "line\n",
    writer := fun _ => true }

/-! ### Claim C2 -/

/-- Claim C2, counterexample: on a running hook whose bounded queue is
full, `Fire` does not drop the entry and return — the unguarded channel
send `h.channel <- e2` blocks the calling thread.  In particular the
outcome is not the claimed "entry dropped, immediate nil return" (which
would leave the buffer unchanged). -/
theorem c2_full_queue_blocks_refutes_drop :
    hookFire hookFull eSample = FireOutcome.blocked ∧
    hookFire hookFull eSample ≠ FireOutcome.returns hookFull.channel none := by
  constructor
  · decide
  · decide

/-- Claim C2 as amended: `Fire` performs a blocking enqueue.  On a running
hook, if the queue has a free slot the call enqueues the duplicated entry
and returns immediately; if the queue is full the call blocks the producer
(no entry is ever dropped). -/
theorem c2_fire_enqueue_or_block (h : GoHook) (e : GoEntryRec)
    (hopen : h.channel.closed = false) :
    (h.channel.buf.length < h.channel.cap →
      ∃ c2, hookFire h e = FireOutcome.returns c2 none ∧
        c2.buf.length = h.channel.buf.length + 1) ∧
    (h.channel.cap ≤ h.channel.buf.length →
      hookFire h e = FireOutcome.blocked) := by
  constructor
  · intro hlt
    refine ⟨{ buf := h.channel.buf ++ [{ goDup e with message := e.message }],
              cap := h.channel.cap, closed := h.channel.closed }, ?_, by simp⟩
    simp [hookFire, chanSend, hopen, hlt]
  · intro hge
    have hnlt : ¬ h.channel.buf.length < h.channel.cap := by omega
    simp [hookFire, chanSend, hopen, hnlt]

/-- Witness for `c2_fire_enqueue_or_block` at the concrete hook with a
free slot. -/
theorem c2_fire_enqueue_or_block_witness :
    ∃ c2, hookFire hookFree eSample = FireOutcome.returns c2 none ∧
      c2.buf.length = hookFree.channel.buf.length + 1 :=
  (c2_fire_enqueue_or_block hookFree eSample rfl).1 (by decide)

/-! ### Claim C3 -/

/-- Claim C3: whenever `Fire` on the asynchronous hook returns, the
returned error is `nil`; and the outcome of `Fire` depends only on the
channel — not on the formatter or the sink writer, so later formatting or
write failures cannot surface through `Fire`. -/
theorem c3_fire_returns_no_error :
    (∀ (h : GoHook) (e : GoEntryRec) (c2 : ChanState) (err : Option String),
      hookFire h e = FireOutcome.returns c2 err → err = none) ∧
    (∀ (h1 h2 : GoHook) (e : GoEntryRec), h1.channel = h2.channel →
      hookFire h1 e = hookFire h2 e) := by
  constructor
  · intro h e c2 err hres
    simp only [hookFire, chanSend] at hres
    split at hres
    · exact absurd hres (by simp)
    · split at hres
      · cases hres
        rfl
      · exact absurd hres (by simp)
  · intro h1 h2 e hch
    simp only [hookFire, chanSend, hch]

/-- Witness for `c3_fire_returns_no_error`: a concrete `Fire` whose
formatter and writer always fail, and the same channel under a succeeding
formatter/writer pair. -/
theorem c3_fire_returns_no_error_witness :
    ((none : Option String) = none) ∧
      hookFire hookFree eSample = hookFire hookFreeOk eSample :=
  ⟨c3_fire_returns_no_error.1 hookFree eSample
      { buf := [{ message := eSample.message, level := PanicLevel,
                  time := eSample.time, data := eSample.data }],
        cap := 1, closed := false } none (by decide),
   c3_fire_returns_no_error.2 hookFree hookFreeOk eSample rfl⟩

/-! ### Claim C4 -/

/-- Claim C4: after the stop function (`close(stopChan); close(channel)`)
has run, every `Fire` panics — a send on a closed channel — and never
returns success, silently or otherwise. -/
theorem c4_fire_after_stop_panics :
    (∀ (h : GoHook) (e : GoEntryRec),
      hookFire (stopHook h) e = FireOutcome.panicked) ∧
    (∀ (h : GoHook) (e : GoEntryRec) (c2 : ChanState) (err : Option String),
      hookFire (stopHook h) e ≠ FireOutcome.returns c2 err) := by
  constructor
  · intro h e
    simp [hookFire, chanSend, stopHook]
  · intro h e c2 err
    simp [hookFire, chanSend, stopHook]

/-! ### Claim C5 -/

/-- An entry carrying a value `encoding/json` cannot marshal (a channel). -/
def eUnsupported : GoEntryRec :=
  { message := "boom", level := InfoLevel, time := tSample,
    data := [("conn", GoValue.unsupported "chan int")] }

def syncDefaultF : SyncFormatter := (syncDefaultFormatter []).2

/-- Claim C5: in the async variant `defer releaseEntry(entry)` releases the
pooled record on every path; but in the sync variant the claim fails — on a
`json.Marshal` error the early return skips `releaseEntry`, as shown at the
concrete failing input `eUnsupported`. -/
theorem c5_release_divergence :
    (∀ (f : LogAgentFormatter) (e : GoEntryRec),
      (goFormatWithRelease f e).2 = true) ∧
    (syncFormatWithRelease syncDefaultF eUnsupported).1 =
      FormatResult.fail "Failed to marshal fields to JSON" ∧
    (syncFormatWithRelease syncDefaultF eUnsupported).2 = false := by
  refine ⟨?_, by decide, by decide⟩
  intro f e
  simp only [goFormatWithRelease]
  split <;> rfl

/-! ### Claim C10 -/

/-- Claim C10: `DefaultFormatter` writes each missing `logstashFields`
binding (`"@version" ↦ "1"`) into the caller's own map and returns a
formatter whose `Fields` is that same (updated) map, so the caller's map is
observably changed — in both variants. -/
theorem c10_default_formatter_mutates_fields (fields : GoFields)
    (habs : goLookup fields "@version" = none) :
    goLookup (DefaultFormatter fields).1 "@version" = some (GoValue.str "1") ∧
    (DefaultFormatter fields).1 ≠ fields ∧
    (DefaultFormatter fields).2.Fields = (DefaultFormatter fields).1 ∧
    goLookup (syncDefaultFormatter fields).1 "@version" = some (GoValue.str "1") ∧
    (syncDefaultFormatter fields).2.Fields = (syncDefaultFormatter fields).1 := by
  have hdf : defaultFormatterFields fields = goInsert "@version" (GoValue.str "1") fields := by
    simp [defaultFormatterFields, defaultFormatterFields.goEntriesFold,
      goEntries, goEntriesAux, logstashFields, habs]
  refine ⟨?_, ?_, rfl, ?_, rfl⟩
  · simp [DefaultFormatter, hdf, goLookup_goInsert]
  · simp only [DefaultFormatter, hdf, goInsert]
    exact List.cons_ne_self _ _
  · simp [syncDefaultFormatter, hdf, goLookup_goInsert]

/-- Witness for `c10_default_formatter_mutates_fields` at the empty
caller map. -/
theorem c10_default_formatter_mutates_fields_witness :
    goLookup (DefaultFormatter []).1 "@version" = some (GoValue.str "1") ∧
    (DefaultFormatter []).1 ≠ [] ∧
    (DefaultFormatter []).2.Fields = (DefaultFormatter []).1 ∧
    goLookup (syncDefaultFormatter []).1 "@version" = some (GoValue.str "1") ∧
    (syncDefaultFormatter []).2.Fields = (syncDefaultFormatter []).1 :=
  c10_default_formatter_mutates_fields [] rfl

/-! ### Claim C6 -/

theorem splitLoop_fst_lookup (ffields : GoFields) (l : GoFields) :
    ∀ (data extras : GoFields) (k : String), (l.map Prod.fst).Nodup →
      goLookup ((splitLoop ffields l data extras).1) k =
        if (goLookup ffields k).isSome ∨ k = FieldKeyCategory then
          match goLookup l k with
          | some v => some (convErrVal v)
          | none => goLookup data k
        else goLookup data k := by
  induction l with
  | nil =>
    intro data extras k _
    simp only [splitLoop, goLookup]
    split <;> rfl
  | cons kv rest ih =>
    intro data extras k hnd
    cases kv with
    | mk k1 v =>
      simp only [List.map_cons, List.nodup_cons] at hnd
      simp only [splitLoop]
      by_cases hc1 : (goLookup ffields k1).isSome ∨ k1 = FieldKeyCategory
      · rw [if_pos hc1, ih (goInsert k1 (convErrVal v) data) extras k hnd.2]
        by_cases hk : k = k1
        · subst hk
          have hrest : goLookup rest k = none :=
            goLookup_eq_none_of_not_mem rest k hnd.1
          simp [hc1, hrest, goLookup, goLookup_goInsert]
        · simp only [goLookup, if_neg hk, goLookup_goInsert]
      · rw [if_neg hc1, ih data (goInsert k1 (convErrVal v) extras) k hnd.2]
        by_cases hk : k = k1
        · subst hk
          have hrest : goLookup rest k = none :=
            goLookup_eq_none_of_not_mem rest k hnd.1
          simp [hc1, hrest, goLookup]
        · simp only [goLookup, if_neg hk]
  
/-- Claim C6: in the split-extras formatter, the top-level field map built
from the merged entry data (before the reserved keys are set) agrees, at
every key, with the claim's description — the static fields overlaid by
exactly those entry fields whose key occurs among the static fields or is
the literal `"category"`, entry values winning — composed with the
spec-mandated error-to-text conversion of field values. -/
theorem c6_split_extras_top_level (statics eData : GoFields) (k : String) :
    goLookup ((splitEntryFields statics (goSetAll (goSetAll [] statics) eData)).1) k =
      Option.map convErrVal (specTopOverlay statics eData k) := by
  rw [splitEntryFields,
    splitLoop_fst_lookup statics _ [] [] k (goKeys_nodup _),
    goEntries_lookup]
  have hmerged : goLookup (goSetAll (goSetAll [] statics) eData) k =
      match goLookup eData k with
      | some v => some v
      | none => goLookup statics k := by
    rw [goSetAll_lookup]
    cases goLookup eData k with
    | some v => rfl
    | none =>
      rw [goSetAll_lookup]
      cases goLookup statics k with
      | some v => rfl
      | none => rfl
  rw [hmerged]
  simp only [specTopOverlay, FieldKeyCategory]
  by_cases hcat : k = "category"
  · subst hcat
    cases he : goLookup eData "category" with
    | some v => simp [he]
    | none =>
      cases hs : goLookup statics "category" with
      | some w => simp [he, hs]
      | none => simp [he, hs, goLookup]
  · cases hs : goLookup statics k with
    | some w =>
      cases he : goLookup eData k with
      | some v => simp [hs, he, hcat]
      | none => simp [hs, he, hcat]
    | none =>
      cases he : goLookup eData k with
      | some v => simp [hs, he, hcat, goLookup]
      | none => simp [hs, he, hcat, goLookup]

/-! ### Claim C8 -/

/-- The source's per-rune safety test coincides with the claim's character
set `[A-Za-z0-9\-._/@^+]`. -/
theorem goSafeRune_eq_specSafeChar (c : Char) : goSafeRune c = specSafeChar c := by
  simp only [goSafeRune, specSafeChar, Char.isAlpha, Char.isUpper, Char.isLower, Char.isDigit]
  rw [Bool.eq_iff_iff]
  simp only [Bool.or_eq_true, Bool.and_eq_true, decide_eq_true_eq, ge_iff_le]
  show _ ↔ _
  constructor
  · rintro ((((h | h) | h) | h) | h) <;> tauto
  · rintro ((((h | h) | h) | h) | h) <;> tauto

/-- `needsQuoting` holds exactly under the claim's condition: the value is
empty while `QuoteEmptyFields` is enabled, or some character lies outside
the safe set. -/
theorem needsQuoting_iff (f : LogAgentFormatter) (v : String) :
    needsQuoting f v = true ↔
      (f.QuoteEmptyFields = true ∧ v = "") ∨ ∃ c ∈ v.data, specSafeChar c = false := by
  have hlen : (v.length = 0) ↔ v = "" := by
    constructor
    · intro h
      cases v with
      | mk data =>
        cases data with
        | nil => rfl
        | cons c rest => simp [String.length] at h
    · intro h
      subst h
      rfl
  simp only [needsQuoting, Bool.or_eq_true, Bool.and_eq_true, decide_eq_true_eq,
    List.any_eq_true, Bool.not_eq_true', hlen, goSafeRune_eq_specSafeChar]

/-- The formatter `DefaultFormatter` yields (`QuoteEmptyFields` off). -/
def fmtrDefault : LogAgentFormatter := (DefaultFormatter []).2

/-- Claim C8: an extras value is rendered in its `%q`-quoted form exactly
when it is empty with `QuoteEmptyFields` enabled or contains a character
outside `[A-Za-z0-9\-._/@^+]`, and otherwise is written verbatim; in
particular `"a b"` renders as `Key="a b"` and `"simple"` renders
unquoted. -/
theorem c8_quoting_rule :
    (∀ (f : LogAgentFormatter) (v : String),
      appendValue f "" (GoValue.str v) =
        (if (f.QuoteEmptyFields = true ∧ v = "") ∨ (∃ c ∈ v.data, specSafeChar c = false)
         then goQuote v else v)) ∧
    appendKeyValue fmtrDefault "msg" "Key" (GoValue.str "a b") = "msg Key=\"a b\"" ∧
    appendKeyValue fmtrDefault "msg" "Key" (GoValue.str "simple") = "msg Key=simple" := by
  refine ⟨?_, by decide, by decide⟩
  intro f v
  simp only [appendValue, goSprint]
  by_cases h : needsQuoting f v = true
  · rw [if_neg (by simp [h]), if_pos ((needsQuoting_iff f v).mp h)]
    simp
  · have hfalse : needsQuoting f v = false := by
      cases hq : needsQuoting f v
      · rfl
      · exact absurd hq h
    rw [if_pos (by simp [hfalse])]
    rw [if_neg (fun hc => h ((needsQuoting_iff f v).mpr hc))]
    simp

/-! ### Claim C7 -/

/-- A nonempty string has positive length. -/
theorem string_length_pos_of_ne (s : String) (h : s ≠ "") : 0 < s.length := by
  cases s with
  | mk d =>
    cases d with
    | nil => exact absurd rfl h
    | cons c rest => simp [String.length]

/-- The C7 test entry: fields `Key2 ↦ Value2, Key1 ↦ Value1` (in that map
order), matching no static field. -/
def eKeys (msg : String) : GoEntryRec :=
  { message := msg, level := DebugLevel, time := tSample,
    data := [("Key2", GoValue.str "Value2"), ("Key1", GoValue.str "Value1")] }

/-- Claim C7, counterexample: with an *empty* original message the extras
are appended without the leading separator, so the output message is
`"Key1=Value1 Key2=Value2"` and not the claimed
`"<original message> Key1=Value1 Key2=Value2"` (which at the empty message
is `" Key1=Value1 Key2=Value2"`). -/
theorem c7_empty_message_no_separator :
    goLookup (formatDataMap fmtrDefault (eKeys "")) "message" =
      some (GoValue.str "Key1=Value1 Key2=Value2") ∧
    goLookup (formatDataMap fmtrDefault (eKeys "")) "message" ≠
      some (GoValue.str " Key1=Value1 Key2=Value2") := by
  constructor
  · decide
  · decide

/-- The claim's two-key instance: at the fields
`{Key2: Value2, Key1: Value1}` the output message is
`"<original message> Key1=Value1 Key2=Value2"` for nonempty messages and
`"Key1=Value1 Key2=Value2"` for the empty one. -/
theorem c7_message_two_key_instance (msg : String) :
    goLookup (formatDataMap fmtrDefault (eKeys msg)) "message" =
      some (GoValue.str
        ((if msg = "" then "" else msg ++ " ") ++ "Key1=Value1 Key2=Value2")) := by
  have hwhole : formatDataMap fmtrDefault (eKeys msg) =
      goInsert FieldKeyMsg
        (GoValue.str (appendKeyValue fmtrDefault
          (appendKeyValue fmtrDefault msg "Key1" (GoValue.str "Value1"))
          "Key2" (GoValue.str "Value2")))
        (goInsert FieldKeyLevel (GoValue.str (getLevelString DebugLevel))
          (goInsert FieldKeyTime (GoValue.str (timestampUTC tSample))
            [("@version", GoValue.str "1")])) := by rfl
  rw [hwhole, goInsert, goLookup]
  rw [if_pos (show "message" = FieldKeyMsg from rfl)]
  by_cases hmsg : msg = ""
  · subst hmsg
    decide
  · have hlen : 0 < msg.length := string_length_pos_of_ne msg hmsg
    have hq1 : needsQuoting fmtrDefault "Value1" = false := by decide
    have hq2 : needsQuoting fmtrDefault "Value2" = false := by decide
    have hstep1 : appendKeyValue fmtrDefault msg "Key1" (GoValue.str "Value1") =
        ((msg ++ " ") ++ "Key1" ++ "=") ++ "Value1" := by
      simp only [appendKeyValue, appendValue, goSprint, hq1, if_pos hlen,
        Bool.not_false, if_pos]
    have hlen2 : 0 < (((msg ++ " ") ++ "Key1" ++ "=") ++ "Value1").length := by
      simp only [String.length_append]
      omega
    have hstep2 : appendKeyValue fmtrDefault
        (((msg ++ " ") ++ "Key1" ++ "=") ++ "Value1") "Key2" (GoValue.str "Value2") =
        (((((msg ++ " ") ++ "Key1" ++ "=") ++ "Value1" ++ " ") ++ "Key2" ++ "=") ++ "Value2") := by
      simp only [appendKeyValue, appendValue, goSprint, hq2, if_pos hlen2,
        Bool.not_false, if_pos]
    rw [hstep1, hstep2, if_neg hmsg]
    congr 1
    congr 1
    apply String.ext
    simp only [String.data_append, List.append_assoc, List.cons_append,
      List.nil_append]

/-! ### Claim C9 -/

theorem hexDigitChar_ne_nl (n : Nat) : hexDigitChar n ≠ '\n' := by
  unfold hexDigitChar
  have h : n % 16 < 16 := Nat.mod_lt _ (by omega)
  set m := n % 16 with hm
  interval_cases m <;> decide

theorem nl_not_mem_jsonQuoteChar (c : Char) : '\n' ∉ jsonQuoteChar c := by
  unfold jsonQuoteChar
  split_ifs with h1 h2 h3 h4 h5 h6 h7 h8
  · decide
  · decide
  · decide
  · decide
  · decide
  · intro hmem
    simp only [List.mem_cons, List.not_mem_nil, or_false] at hmem
    rcases hmem with h | h | h | h | h | h
    · exact absurd h (by decide)
    · exact absurd h (by decide)
    · exact absurd h (by decide)
    · exact absurd h (by decide)
    · exact hexDigitChar_ne_nl _ h.symm
    · exact hexDigitChar_ne_nl _ h.symm
  · intro hmem
    simp only [List.mem_cons, List.not_mem_nil, or_false] at hmem
    rcases hmem with h | h | h | h | h | h
    · exact absurd h (by decide)
    · exact absurd h (by decide)
    · exact absurd h (by decide)
    · exact absurd h (by decide)
    · exact hexDigitChar_ne_nl _ h.symm
    · exact hexDigitChar_ne_nl _ h.symm
  · intro hmem
    simp only [List.mem_cons, List.not_mem_nil, or_false] at hmem
    rcases hmem with h | h | h | h | h | h
    · exact absurd h (by decide)
    · exact absurd h (by decide)
    · exact absurd h (by decide)
    · exact absurd h (by decide)
    · exact absurd h (by decide)
    · exact hexDigitChar_ne_nl _ h.symm
  · intro hmem
    simp only [List.mem_singleton] at hmem
    exact h3 hmem.symm

theorem nl_not_mem_jsonQuote (s : String) : '\n' ∉ (jsonQuote s).data := by
  show '\n' ∉ '"' :: (s.data.map jsonQuoteChar).flatten ++ ['"']
  intro hmem
  rcases List.mem_cons.mp hmem with h | h
  · exact absurd h (by decide)
  · rcases List.mem_append.mp h with h2 | h2
    · rcases List.mem_flatten.mp h2 with ⟨l, hl, hcl⟩
      rcases List.mem_map.mp hl with ⟨c, _, rfl⟩
      exact nl_not_mem_jsonQuoteChar c hcl
    · exact absurd h2 (by decide)

theorem nl_not_mem_marshalValue (v : GoValue) (out : String)
    (h : marshalValue v = some out) : '\n' ∉ out.data := by
  cases v with
  | str s =>
    cases h
    exact nl_not_mem_jsonQuote s
  | err m =>
    cases h
    decide
  | unsupported r => cases h

theorem nl_not_mem_marshalMembers (l : GoFields) :
    ∀ (parts : List String), marshalMembers l = some parts →
      ∀ p ∈ parts, '\n' ∉ p.data := by
  induction l with
  | nil =>
    intro parts h p hp
    cases h
    cases hp
  | cons kv rest ih =>
    intro parts h p hp
    cases kv with
    | mk k v =>
      simp only [marshalMembers] at h
      cases hv : marshalValue v with
      | none => rw [hv] at h; cases h
      | some vs =>
        rw [hv] at h
        cases hrest : marshalMembers rest with
        | none => rw [hrest] at h; cases h
        | some rs =>
          rw [hrest] at h
          cases h
          rcases List.mem_cons.mp hp with hpe | hpe
          · subst hpe
            rw [String.data_append, String.data_append]
            intro hmem
            rcases List.mem_append.mp hmem with hm | hm
            · rcases List.mem_append.mp hm with hm2 | hm2
              · exact nl_not_mem_jsonQuote k hm2
              · exact absurd hm2 (by decide)
            · exact nl_not_mem_marshalValue v vs hv hm
          · exact ih rs hrest p hpe

theorem nl_not_mem_joinComma (parts : List String)
    (h : ∀ p ∈ parts, '\n' ∉ p.data) : '\n' ∉ (joinComma parts).data := by
  induction parts with
  | nil => simp [joinComma]
  | cons x rest ih =>
    cases rest with
    | nil =>
      simp only [joinComma]
      exact h x (List.mem_cons_self _ _)
    | cons y t =>
      show '\n' ∉ (x ++ "," ++ joinComma (y :: t)).data
      rw [String.data_append, String.data_append]
      intro hmem
      rcases List.mem_append.mp hmem with hm | hm
      · rcases List.mem_append.mp hm with hm2 | hm2
        · exact h x (List.mem_cons_self _ _) hm2
        · exact absurd hm2 (by decide)
      · exact ih (fun p hp => h p (List.mem_cons_of_mem _ hp)) hm

theorem nl_not_mem_marshalObj (m : GoFields) (out : String)
    (h : marshalObj m = some out) : '\n' ∉ out.data := by
  unfold marshalObj at h
  cases hmem : marshalMembers ((sortStrings (goKeys m)).filterMap
      (fun k => (goLookup m k).map (fun v => (k, v)))) with
  | none => rw [hmem] at h; cases h
  | some parts =>
    rw [hmem] at h
    cases h
    rw [String.data_append, String.data_append]
    intro hc
    rcases List.mem_append.mp hc with hm | hm
    · rcases List.mem_append.mp hm with hm2 | hm2
      · exact absurd hm2 (by decide)
      · exact nl_not_mem_joinComma parts (nl_not_mem_marshalMembers _ parts hmem) hm2
    · exact absurd hm (by decide)

/-- `formatDataMap` with its lets unfolded. -/
theorem formatDataMap_eq (f : LogAgentFormatter) (e : GoEntryRec) :
    formatDataMap f e =
      goInsert FieldKeyMsg
        (GoValue.str (buildMessage f e.message
          (splitEntryFields f.Fields (goSetAll (goSetAll [] f.Fields) e.data)).2))
        (goInsert FieldKeyLevel (GoValue.str (getLevelString e.level))
          (goInsert FieldKeyTime (GoValue.str (timestampUTC e.time))
            (splitEntryFields f.Fields (goSetAll (goSetAll [] f.Fields) e.data)).1)) := rfl

/-- `DefaultFormatter` always leaves an `"@version"` binding in its fields. -/
theorem defaultFormatterFields_version (flds : GoFields) :
    (goLookup (defaultFormatterFields flds) "@version").isSome = true := by
  show (goLookup (defaultFormatterFields.goEntriesFold (goEntries logstashFields) flds)
    "@version").isSome = true
  have hent : goEntries logstashFields = [("@version", GoValue.str "1")] := rfl
  rw [hent]
  simp only [defaultFormatterFields.goEntriesFold]
  cases hv : goLookup flds "@version" with
  | some v => simp [hv]
  | none => simp [hv, goLookup_goInsert]

/-- Claim C9: every successful output of the `DefaultFormatter`-built async
formatter is one newline-terminated line; the part before the newline is
the `encoding/json` serialization of a field map that contains at least the
keys `@timestamp`, `level`, `message` and `@version`, and contains no raw
newline byte. -/
theorem c9_line_shape (flds : GoFields) (e : GoEntryRec) (out : String)
    (hok : goFormat (DefaultFormatter flds).2 e = FormatResult.ok out) :
    ∃ line m, out = line ++ "\n" ∧ '\n' ∉ line.data ∧ marshalObj m = some line ∧
      (goLookup m "@timestamp").isSome = true ∧
      (goLookup m "level").isSome = true ∧
      (goLookup m "message").isSome = true ∧
      (goLookup m "@version").isSome = true := by
  unfold goFormat goFormatWithRelease at hok
  cases hm : marshalObj (formatDataMap (DefaultFormatter flds).2 e) with
  | none =>
    rw [hm] at hok
    cases hok
  | some line =>
    rw [hm] at hok
    cases hok
    refine ⟨line, formatDataMap (DefaultFormatter flds).2 e, rfl,
      nl_not_mem_marshalObj _ line hm, hm, ?_, ?_, ?_, ?_⟩
    · rw [formatDataMap_eq]
      simp [goLookup_goInsert, FieldKeyMsg, FieldKeyLevel, FieldKeyTime]
    · rw [formatDataMap_eq]
      simp [goLookup_goInsert, FieldKeyMsg, FieldKeyLevel, FieldKeyTime]
    · rw [formatDataMap_eq]
      simp [goLookup_goInsert, FieldKeyMsg, FieldKeyLevel, FieldKeyTime]
    · rw [formatDataMap_eq]
      have hff : (DefaultFormatter flds).2.Fields = defaultFormatterFields flds := rfl
      simp only [goLookup_goInsert, FieldKeyMsg, FieldKeyLevel, FieldKeyTime]
      rw [splitEntryFields, splitLoop_fst_lookup _ _ [] [] "@version" (goKeys_nodup _),
        goEntries_lookup, hff]
      have hffv := defaultFormatterFields_version flds
      have hcond : (goLookup (defaultFormatterFields flds) "@version").isSome ∨
          ("@version" : String) = FieldKeyCategory := Or.inl (by simp [hffv])
      have hmerged : (goLookup (goSetAll (goSetAll [] (defaultFormatterFields flds)) e.data)
          "@version").isSome = true := by
        rw [goSetAll_lookup]
        cases he : goLookup e.data "@version" with
        | some v => rfl
        | none =>
          rw [goSetAll_lookup]
          cases hf2 : goLookup (defaultFormatterFields flds) "@version" with
          | some v => rfl
          | none => rw [hf2] at hffv; cases hffv
      rw [if_pos hcond]
      cases hmg : goLookup (goSetAll (goSetAll [] (defaultFormatterFields flds)) e.data)
          "@version" with
      | some v => simp
      | none => rw [hmg] at hmerged; cases hmerged

/-- Witness for `c9_line_shape` at the concrete entry `eSample` under
`DefaultFormatter(logrus.Fields{})`. -/
theorem c9_line_shape_witness :
    ∃ line m,
      "\x7b\"@timestamp\":\"2018-07-21T14:34:42Z\",\"@version\":\"1\",\"level\":\"INFO\",\"message\":\"my message\"\x7d\n" =
        line ++ "\n" ∧
      '\n' ∉ line.data ∧ marshalObj m = some line ∧
      (goLookup m "@timestamp").isSome = true ∧
      (goLookup m "level").isSome = true ∧
      (goLookup m "message").isSome = true ∧
      (goLookup m "@version").isSome = true :=
  c9_line_shape [] eSample _ (by decide)

/-! ### Claim C1 -/

/-- Claim C1, counterexample: at the README's instant (a whole second,
zero nanoseconds) the async formatter's timestamp is
`"2018-07-21T14:34:42Z"` — 20 characters, no fractional part at all — so it
does not match the claimed fixed pattern `YYYY-MM-DDTHH:mm:ss.sssZ` with
exactly three fractional digits. -/
theorem c1_fixed_millis_refuted :
    isFixedMillisPattern (timestampUTC tSample) = false ∧
    timestampUTC tSample = "2018-07-21T14:34:42Z" := by
  constructor
  · decide
  · decide

theorem decDigitChar_isDigit (n : Nat) : (decDigitChar n).isDigit = true := by
  unfold decDigitChar
  have h : n % 10 < 10 := Nat.mod_lt _ (by omega)
  set m := n % 10 with hm
  interval_cases m <;> decide

theorem goDigitsAux_spec (fuel : Nat) :
    ∀ n, n < fuel →
      (∀ c ∈ goDigitsAux fuel n, c.isDigit = true) ∧
      1 ≤ (goDigitsAux fuel n).length ∧
      (∀ k, n < 10 ^ k → 1 ≤ k → (goDigitsAux fuel n).length ≤ k) := by
  induction fuel with
  | zero => intro n h; omega
  | succ fuel ih =>
    intro n hn
    by_cases h10 : n < 10
    · refine ⟨?_, ?_, ?_⟩
      · intro c hc
        simp only [goDigitsAux, if_pos h10, List.mem_singleton] at hc
        subst hc
        exact decDigitChar_isDigit n
      · simp [goDigitsAux, if_pos h10]
      · intro k _ hk
        simp [goDigitsAux, if_pos h10]
        omega
    · have hdiv : n / 10 < fuel := by
        have h1 : n / 10 < n := Nat.div_lt_self (by omega) (by omega)
        omega
      obtain ⟨ihd, ihlen, ihbound⟩ := ih (n / 10) hdiv
      refine ⟨?_, ?_, ?_⟩
      · intro c hc
        simp only [goDigitsAux, if_neg h10, List.mem_append, List.mem_singleton] at hc
        rcases hc with hc | hc
        · exact ihd c hc
        · subst hc
          exact decDigitChar_isDigit (n % 10)
      · simp [goDigitsAux, if_neg h10]
      · intro k hpw hk
        cases k with
        | zero => omega
        | succ j =>
          have hj : 1 ≤ j := by
            by_contra hj0
            have : j = 0 := by omega
            subst this
            simp [pow_succ, pow_zero] at hpw
            omega
          have hq : n / 10 < 10 ^ j := by
            have := (Nat.div_lt_iff_lt_mul (show 0 < 10 by omega)).mpr
              (show n < 10 ^ j * 10 by rw [← pow_succ]; exact hpw)
            exact this
          have hb := ihbound j hq hj
          simp only [goDigitsAux, if_neg h10, List.length_append, List.length_singleton]
          omega

theorem goDigits_all_digit (n : Nat) : ∀ c ∈ goDigits n, c.isDigit = true :=
  (goDigitsAux_spec (n + 1) n (by omega)).1

theorem goDigits_len_pos (n : Nat) : 1 ≤ (goDigits n).length :=
  (goDigitsAux_spec (n + 1) n (by omega)).2.1

theorem goDigits_len_le (n k : Nat) (h : n < 10 ^ k) (hk : 1 ≤ k) :
    (goDigits n).length ≤ k :=
  (goDigitsAux_spec (n + 1) n (by omega)).2.2 k h hk

theorem goPad_spec (w n : Nat) (h : n < 10 ^ w) (hw : 1 ≤ w) :
    (goPad w n).length = w ∧ ∀ c ∈ goPad w n, c.isDigit = true := by
  have hle := goDigits_len_le n w h hw
  constructor
  · simp only [goPad, List.length_append, List.length_replicate]
    omega
  · intro c hc
    simp only [goPad, List.mem_append, List.mem_replicate] at hc
    rcases hc with hc | hc
    · rw [hc.2]
      decide
    · exact goDigits_all_digit n c hc

theorem list_len_two (l : List Char) (h : l.length = 2) : ∃ a b, l = [a, b] := by
  match l, h with
  | [a, b], _ => exact ⟨a, b, rfl⟩

theorem list_len_four (l : List Char) (h : l.length = 4) :
    ∃ a b c d, l = [a, b, c, d] := by
  match l, h with
  | [a, b, c, d], _ => exact ⟨a, b, c, d, rfl⟩

theorem dropWhile_head_not (p : Char → Bool) (l : List Char) :
    ∀ a rest, l.dropWhile p = a :: rest → p a = false := by
  induction l with
  | nil => intro a rest h; cases h
  | cons x xs ih =>
    intro a rest h
    by_cases hp : p x = true
    · rw [List.dropWhile_cons_of_pos hp] at h
      exact ih a rest h
    · rw [List.dropWhile_cons_of_neg hp] at h
      cases h
      exact Bool.eq_false_iff.mpr hp

theorem goFrac999_eq (nanos : Nat) :
    goFrac999 nanos =
      (if ((goPad 3 (nanos / 1000000)).reverse.dropWhile (fun c => c = '0')).reverse = []
       then []
       else '.' :: ((goPad 3 (nanos / 1000000)).reverse.dropWhile (fun c => c = '0')).reverse) := by
  unfold goFrac999
  set D := ((goPad 3 (nanos / 1000000)).reverse.dropWhile (fun c => c = '0')).reverse with hD
  cases D with
  | nil => rfl
  | cons a l => rfl

/-- The `.999` fragment of a valid nanosecond count is either absent or a
dot followed by one to three digit characters whose last is not `'0'`. -/
theorem goFrac999_spec (nanos : Nat) (h : nanos < 1000000000) :
    goFrac999 nanos = [] ∨
    ∃ ds, goFrac999 nanos = '.' :: ds ∧ 1 ≤ ds.length ∧ ds.length ≤ 3 ∧
      (∀ c ∈ ds, c.isDigit = true) ∧ ds.getLast? ≠ some '0' := by
  have hms : nanos / 1000000 < 10 ^ 3 := by
    have h2 : nanos / 1000000 < 1000 :=
      (Nat.div_lt_iff_lt_mul (by omega)).mpr (by omega)
    omega
  obtain ⟨hlen3, hdig⟩ := goPad_spec 3 (nanos / 1000000) hms (by omega)
  rw [goFrac999_eq]
  by_cases hD : ((goPad 3 (nanos / 1000000)).reverse.dropWhile (fun c => c = '0')).reverse = []
  · left
    rw [if_pos hD]
  · right
    refine ⟨_, by rw [if_neg hD], ?_, ?_, ?_, ?_⟩
    · cases hc : ((goPad 3 (nanos / 1000000)).reverse.dropWhile (fun c => c = '0')).reverse with
      | nil => exact absurd hc hD
      | cons a l => simp [hc]
    · calc ((goPad 3 (nanos / 1000000)).reverse.dropWhile (fun c => c = '0')).reverse.length
          = ((goPad 3 (nanos / 1000000)).reverse.dropWhile (fun c => c = '0')).length :=
            List.length_reverse _
        _ ≤ (goPad 3 (nanos / 1000000)).reverse.length :=
            (List.dropWhile_sublist _).length_le
        _ = (goPad 3 (nanos / 1000000)).length := List.length_reverse _
        _ = 3 := hlen3
    · intro c hc
      apply hdig
      exact List.mem_reverse.mp
        ((List.dropWhile_sublist _).subset (List.mem_reverse.mp hc))
    · rw [List.getLast?_eq_head?_reverse, List.reverse_reverse]
      cases hh : (goPad 3 (nanos / 1000000)).reverse.dropWhile (fun c => c = '0') with
      | nil =>
        rw [hh] at hD
        exact absurd rfl hD
      | cons a l =>
        have hne := dropWhile_head_not _ _ a l hh
        simp only [List.head?, ne_eq, Option.some.injEq]
        intro heq
        rw [heq] at hne
        simp at hne

/-- Claim C1 as amended: for every in-range civil reading, the async
variant's `@timestamp` (`entry.Time.UTC().Format(TimeFormat)`) is the UTC
date-time `YYYY-MM-DDTHH:mm:ss`, followed by a fractional-second part of at
most three digits with trailing zeros elided (omitted entirely when the
millisecond fraction is zero), followed by the literal `Z` of the zero UTC
offset — not a fixed three-digit fraction. -/
theorem c1_timestamp_elided_millis (t : GoTime)
    (hy : t.year ≤ 9999) (hmo : t.month ≤ 99) (hd : t.day ≤ 99)
    (hhr : t.hour ≤ 99) (hmi : t.minute ≤ 99) (hs : t.second ≤ 99)
    (hn : t.nanos < 1000000000) :
    isElidedMillisPattern (timestampUTC t) = true := by
  have hpow4 : (10 : Nat) ^ 4 = 10000 := by norm_num
  have hpow2 : (10 : Nat) ^ 2 = 100 := by norm_num
  obtain ⟨hylen, hydig⟩ := goPad_spec 4 t.year (by omega) (by omega)
  obtain ⟨hmolen, hmodig⟩ := goPad_spec 2 t.month (by omega) (by omega)
  obtain ⟨hdlen, hddig⟩ := goPad_spec 2 t.day (by omega) (by omega)
  obtain ⟨hhlen, hhdig⟩ := goPad_spec 2 t.hour (by omega) (by omega)
  obtain ⟨hmilen, hmidig⟩ := goPad_spec 2 t.minute (by omega) (by omega)
  obtain ⟨hslen, hsdig⟩ := goPad_spec 2 t.second (by omega) (by omega)
  obtain ⟨a1, a2, a3, a4, hy4⟩ := list_len_four _ hylen
  obtain ⟨b1, b2, hmo2⟩ := list_len_two _ hmolen
  obtain ⟨c1, c2, hd2⟩ := list_len_two _ hdlen
  obtain ⟨d1, d2, hh2⟩ := list_len_two _ hhlen
  obtain ⟨e1, e2, hmi2⟩ := list_len_two _ hmilen
  obtain ⟨f1, f2, hs2⟩ := list_len_two _ hslen
  have ha1 := hydig a1 (by rw [hy4]; simp)
  have ha2 := hydig a2 (by rw [hy4]; simp)
  have ha3 := hydig a3 (by rw [hy4]; simp)
  have ha4 := hydig a4 (by rw [hy4]; simp)
  have hb1 := hmodig b1 (by rw [hmo2]; simp)
  have hb2 := hmodig b2 (by rw [hmo2]; simp)
  have hc1 := hddig c1 (by rw [hd2]; simp)
  have hc2 := hddig c2 (by rw [hd2]; simp)
  have hd1 := hhdig d1 (by rw [hh2]; simp)
  have hd2d := hhdig d2 (by rw [hh2]; simp)
  have he1 := hmidig e1 (by rw [hmi2]; simp)
  have he2 := hmidig e2 (by rw [hmi2]; simp)
  have hf1 := hsdig f1 (by rw [hs2]; simp)
  have hf2 := hsdig f2 (by rw [hs2]; simp)
  have hdata : (timestampUTC t).data =
      goPad 4 t.year ++ '-' :: goPad 2 t.month ++ '-' :: goPad 2 t.day ++
      'T' :: goPad 2 t.hour ++ ':' :: goPad 2 t.minute ++ ':' :: goPad 2 t.second ++
      goFrac999 t.nanos ++ goZoneZ 0 := rfl
  have hzone : goZoneZ 0 = ['Z'] := rfl
  have hB : (timestampUTC t).data =
      [a1, a2, a3, a4, '-', b1, b2, '-', c1, c2, 'T', d1, d2, ':', e1, e2, ':', f1, f2] ++
      (goFrac999 t.nanos ++ ['Z']) := by
    rw [hdata, hy4, hmo2, hd2, hh2, hmi2, hs2, hzone]
    simp [List.cons_append, List.append_assoc]
  have hblen : ([a1, a2, a3, a4, '-', b1, b2, '-', c1, c2, 'T', d1, d2, ':',
      e1, e2, ':', f1, f2] : List Char).length = 19 := by simp
  unfold isElidedMillisPattern
  rw [hB, List.take_left' hblen, List.drop_left' hblen]
  have hbase : isBase19
      [a1, a2, a3, a4, '-', b1, b2, '-', c1, c2, 'T', d1, d2, ':', e1, e2, ':', f1, f2] = true := by
    simp [isBase19, ha1, ha2, ha3, ha4, hb1, hb2, hc1, hc2, hd1, hd2d, he1, he2, hf1, hf2]
  rw [hbase]
  rcases goFrac999_spec t.nanos hn with hF | ⟨ds, hF, hds1, hds3, hdsdig, hdslast⟩
  · rw [hF]
    rfl
  · rw [hF]
    simp only [List.cons_append, Bool.true_and]
    simp only [List.getLast?_concat, List.dropLast_concat, decide_eq_true_eq]
    have hall : ds.all Char.isDigit = true := List.all_eq_true.mpr hdsdig
    simp [hds1, hds3, hall, hdslast]

/-- Witness for `c1_timestamp_elided_millis` at the README instant with a
120 ms fraction (rendered `".12"`, trailing zero elided). -/
theorem c1_timestamp_elided_millis_witness :
    isElidedMillisPattern (timestampUTC
      { year := 2018, month := 7, day := 21, hour := 14, minute := 34,
        second := 42, nanos := 120000000, offsetSec := 32400 }) = true :=
  c1_timestamp_elided_millis _ (by decide) (by decide) (by decide) (by decide)
    (by decide) (by decide) (by decide)

/-! ### Claim C7, general form -/

/-- Spec-side (claim-side): tokens joined by single spaces. -/
def joinSpace : List String → String
  | [] => ""
  | [x] => x
  | x :: rest => x ++ " " ++ joinSpace rest

/-- Spec-side: the `key=value` token of one extra (the value rendered by
the formatter's value writer, quoting per C8). -/
def specToken (f : LogAgentFormatter) (extras : GoFields) (k : String) : String :=
  k ++ "=" ++ appendValue f "" ((goLookup extras k).getD (GoValue.str ""))

/-- Spec-side: the claim's message — the original message followed by the
space-separated tokens of the extras in sorted key order, the leading
separator omitted when the original message is empty. -/
def specMessageWithExtras (f : LogAgentFormatter) (message : String)
    (extras : GoFields) : String :=
  if message = "" then
    joinSpace ((sortStrings (goKeys extras)).map (specToken f extras))
  else
    message ++ " " ++ joinSpace ((sortStrings (goKeys extras)).map (specToken f extras))

theorem string_empty_append (s : String) : "" ++ s = s := by
  apply String.ext
  simp [String.data_append]

theorem appendValue_split (f : LogAgentFormatter) (b : String) (v : GoValue) :
    appendValue f b v = b ++ appendValue f "" v := by
  simp only [appendValue]
  split
  · rw [string_empty_append]
  · rw [string_empty_append]

theorem appendKeyValue_eq (f : LogAgentFormatter) (b k : String) (v : GoValue) :
    appendKeyValue f b k v =
      (if 0 < b.length then b ++ " " else b) ++ (k ++ "=" ++ appendValue f "" v) := by
  unfold appendKeyValue
  rw [appendValue_split]
  apply String.ext
  simp [String.data_append, List.append_assoc]

theorem lookup_isSome_of_mem_keys (m : GoFields) (k : String)
    (h : k ∈ m.map Prod.fst) : (goLookup m k).isSome = true := by
  induction m with
  | nil => simp at h
  | cons kv rest ih =>
    cases kv with
    | mk k1 v =>
      simp only [List.map_cons, List.mem_cons] at h
      by_cases hk : k = k1
      · simp [goLookup, hk]
      · rcases h with h | h
        · exact absurd h hk
        · simp [goLookup, hk, ih h]

theorem insertSorted_perm (x : String) (l : List String) :
    (insertSorted x l).Perm (x :: l) := by
  induction l with
  | nil => simp [insertSorted]
  | cons z rest ih =>
    unfold insertSorted
    by_cases h : goStrLe x z = true
    · rw [if_pos h]
    · rw [if_neg h]
      exact (List.Perm.cons z ih).trans (List.Perm.swap x z rest)

/-- `sortStrings` permutes its input: no key is lost or invented. -/
theorem sortStrings_perm (l : List String) : (sortStrings l).Perm l := by
  induction l with
  | nil => simp [sortStrings]
  | cons x rest ih =>
    show (insertSorted x (sortStrings rest)).Perm (x :: rest)
    exact (insertSorted_perm x (sortStrings rest)).trans (List.Perm.cons x ih)

theorem charListLe_total (a : List Char) :
    ∀ b, charListLe a b = true ∨ charListLe b a = true := by
  induction a with
  | nil => intro b; left; rfl
  | cons x xs ih =>
    intro b
    cases b with
    | nil => right; rfl
    | cons y ys =>
      rcases lt_trichotomy x y with h | h | h
      · left
        simp [charListLe, h]
      · subst h
        rcases ih ys with h2 | h2
        · left
          simp only [charListLe, if_neg (lt_irrefl x)]
          exact h2
        · right
          simp only [charListLe, if_neg (lt_irrefl x)]
          exact h2
      · right
        simp [charListLe, h]

theorem goStrLe_total (a b : String) : goStrLe a b = true ∨ goStrLe b a = true :=
  charListLe_total a.data b.data

theorem chain_insertSorted (x : String) (l : List String)
    (h : List.Chain' (fun a b => goStrLe a b = true) l) :
    List.Chain' (fun a b => goStrLe a b = true) (insertSorted x l) := by
  induction l with
  | nil => simp [insertSorted]
  | cons y rest ih =>
    unfold insertSorted
    by_cases hxy : goStrLe x y = true
    · rw [if_pos hxy]
      exact List.chain'_cons'.mpr ⟨fun b hb => by simp at hb; rw [← hb]; exact hxy, h⟩
    · rw [if_neg hxy]
      have hyx : goStrLe y x = true := by
        rcases goStrLe_total x y with h1 | h1
        · exact absurd h1 hxy
        · exact h1
      obtain ⟨hhead, htail⟩ := List.chain'_cons'.mp h
      refine List.chain'_cons'.mpr ⟨?_, ih htail⟩
      intro b hb
      cases rest with
      | nil =>
        simp [insertSorted] at hb
        rw [← hb]
        exact hyx
      | cons z zs =>
        unfold insertSorted at hb
        by_cases hxz : goStrLe x z = true
        · rw [if_pos hxz] at hb
          simp at hb
          rw [← hb]
          exact hyx
        · rw [if_neg hxz] at hb
          simp at hb
          rw [← hb]
          exact hhead z (by simp)

/-- `sortStrings` sorts: each key is `<=` (Go string order) the next. -/
theorem sortStrings_chain (l : List String) :
    List.Chain' (fun a b => goStrLe a b = true) (sortStrings l) := by
  induction l with
  | nil => simp [sortStrings]
  | cons x rest ih => exact chain_insertSorted x (sortStrings rest) ih

theorem specToken_eq (f : LogAgentFormatter) (extras : GoFields) (k : String)
    (v : GoValue) (hv : goLookup extras k = some v) :
    specToken f extras k = k ++ "=" ++ appendValue f "" v := by
  unfold specToken
  rw [hv]
  rfl

theorem specToken_length_pos (f : LogAgentFormatter) (extras : GoFields)
    (k : String) : 0 < (specToken f extras k).length := by
  unfold specToken
  simp only [String.length_append]
  have h1 : ("=" : String).length = 1 := rfl
  omega

theorem extrasStep_eq_pos (f : LogAgentFormatter) (extras : GoFields) (b k : String)
    (hb : 0 < b.length) (hk : (goLookup extras k).isSome = true) :
    extrasStep f extras b k = b ++ " " ++ specToken f extras k := by
  obtain ⟨v, hv⟩ := Option.isSome_iff_exists.mp hk
  unfold extrasStep
  rw [hv]
  show appendKeyValue f b k v = b ++ " " ++ specToken f extras k
  rw [appendKeyValue_eq, if_pos hb, specToken_eq f extras k v hv]

theorem extrasStep_eq_empty (f : LogAgentFormatter) (extras : GoFields) (k : String)
    (hk : (goLookup extras k).isSome = true) :
    extrasStep f extras "" k = specToken f extras k := by
  obtain ⟨v, hv⟩ := Option.isSome_iff_exists.mp hk
  unfold extrasStep
  rw [hv]
  show appendKeyValue f "" k v = specToken f extras k
  rw [appendKeyValue_eq, if_neg (by decide), string_empty_append,
    specToken_eq f extras k v hv]

theorem foldl_extrasStep_cons (f : LogAgentFormatter) (extras : GoFields)
    (rest : List String) :
    ∀ (k b : String), 0 < b.length →
      (∀ k2 ∈ k :: rest, (goLookup extras k2).isSome = true) →
      List.foldl (extrasStep f extras) b (k :: rest) =
        b ++ " " ++ joinSpace ((k :: rest).map (specToken f extras)) := by
  induction rest with
  | nil =>
    intro k b hb hmem
    simp only [List.foldl_cons, List.foldl_nil]
    rw [extrasStep_eq_pos f extras b k hb (hmem k (List.mem_cons_self _ _))]
    rfl
  | cons k2 rest2 ih =>
    intro k b hb hmem
    rw [List.foldl_cons,
      extrasStep_eq_pos f extras b k hb (hmem k (List.mem_cons_self _ _)),
      ih k2 (b ++ " " ++ specToken f extras k)
        (by simp only [String.length_append]; omega)
        (fun k3 h3 => hmem k3 (List.mem_cons_of_mem _ h3))]
    apply String.ext
    simp [String.data_append, List.append_assoc, joinSpace, List.map_cons]

/-- The general sorted-extras property: with sorting enabled and any
non-empty extras map, the message built by the source's buffer loop is the
original message followed by the space-separated `key=value` tokens of the
extras in sorted key order (the leading separator omitted when the message
is empty). -/
theorem buildMessage_sorted_spec (f : LogAgentFormatter) (message : String)
    (extras : GoFields) (hsort : f.DisableSorting = false)
    (hne : 0 < (goEntries extras).length) :
    buildMessage f message extras = specMessageWithExtras f message extras := by
  have hmem : ∀ k ∈ sortStrings (goKeys extras), (goLookup extras k).isSome = true := by
    intro k hk
    have h1 : k ∈ goKeys extras := (sortStrings_perm (goKeys extras)).mem_iff.mp hk
    have h2 := lookup_isSome_of_mem_keys (goEntries extras) k h1
    rw [goEntries_lookup] at h2
    exact h2
  have hne2 : sortStrings (goKeys extras) ≠ [] := by
    intro hnil
    have hlen := (sortStrings_perm (goKeys extras)).length_eq
    rw [hnil] at hlen
    simp only [List.length_nil, goKeys, List.length_map] at hlen
    omega
  unfold buildMessage specMessageWithExtras
  rw [if_pos hne, hsort]
  simp only [Bool.not_false, if_true]
  cases hks : sortStrings (goKeys extras) with
  | nil => exact absurd hks hne2
  | cons k rest =>
    rw [hks] at hmem
    by_cases hmsg : message = ""
    · rw [if_pos hmsg, hmsg]
      simp only [List.foldl_cons]
      rw [extrasStep_eq_empty f extras k (hmem k (List.mem_cons_self _ _))]
      cases rest with
      | nil => simp [joinSpace]
      | cons k2 rest2 =>
        rw [foldl_extrasStep_cons f extras rest2 k2 (specToken f extras k)
          (specToken_length_pos f extras k)
          (fun k3 h3 => hmem k3 (List.mem_cons_of_mem _ h3))]
        rfl
    · rw [if_neg hmsg,
        foldl_extrasStep_cons f extras rest k message
          (string_length_pos_of_ne message hmsg) hmem]

/-- Claim C7 as amended: (1) for every formatter with sorting enabled,
every message and every non-empty extras map, the output message is the
original message followed by the space-separated `key=value` tokens of the
extras in lexicographically sorted key order, the leading separator omitted
exactly when the original message is empty; (2) the key order used is
genuinely sorted — a permutation of the extras' keys in which each key is
`<=` the next in Go string order; (3) at the claim's fields
`{Key2: Value2, Key1: Value1}` the message is
`"<original message> Key1=Value1 Key2=Value2"` for nonempty messages. -/
theorem c7_sorted_extras_message :
    (∀ (f : LogAgentFormatter) (message : String) (extras : GoFields),
      f.DisableSorting = false → 0 < (goEntries extras).length →
      buildMessage f message extras = specMessageWithExtras f message extras) ∧
    (∀ extras : GoFields,
      List.Chain' (fun a b => goStrLe a b = true) (sortStrings (goKeys extras)) ∧
      (sortStrings (goKeys extras)).Perm (goKeys extras)) ∧
    (∀ msg : String,
      goLookup (formatDataMap fmtrDefault (eKeys msg)) "message" =
        some (GoValue.str
          ((if msg = "" then "" else msg ++ " ") ++ "Key1=Value1 Key2=Value2"))) :=
  ⟨buildMessage_sorted_spec,
   fun extras => ⟨sortStrings_chain (goKeys extras), sortStrings_perm (goKeys extras)⟩,
   c7_message_two_key_instance⟩
